import Mathlib

/-!
Verification development for the svelte-transition repository.

The repository contains three near-duplicate variants of the component:
two concatenated in `src/src/lib/Transition.svelte` (called variant 1 and
variant 2 below) and the Svelte 5 variant in `src/unnamed/part_000`
(called the part_000 variant).  Pure helpers (`classes`, the leave-class
derivation, `transitionEnd`, the `childrenCompleted` gate closure, the
`execute` run flag, the `mounted` flag) are identical or near-identical
across variants and are embedded once; where the variants disagree (the
order of class removal versus the children gate in `apply`, and the
serialization of top-level `update` calls) both behaviours are embedded.
-/

namespace SvelteTransition

/-! ## `classes` — src/unnamed/part_000 lines 23–25, Transition.svelte lines 20–22
`classes ? classes.split(' ').filter(x => x) : []`
(JS `split(' ')` splits on every single space, keeping empty tokens for
leading/trailing/adjacent separators; splitting the character list on `' '`
has the same semantics.) -/

def classes (s : String) : List String :=
  if s = "" then []
  else ((s.data.splitOn ' ').map String.mk).filter (fun x => x != "")

/-! ## Leave class derivation — part_000 lines 82–84, Transition.svelte lines 74–76
`leave === null ? enter : leave`, `leaveFrom === null ? enterTo : leaveFrom`,
`leaveTo === null ? enterFrom : leaveTo`.  An unset prop is `none`. -/

structure ClassProps where
  enter : String
  enterFrom : String
  enterTo : String
  leave : Option String
  leaveFrom : Option String
  leaveTo : Option String

def leaveStr (p : ClassProps) : String :=
  match p.leave with
  | none => p.enter
  | some l => l

def leaveFromStr (p : ClassProps) : String :=
  match p.leaveFrom with
  | none => p.enterTo
  | some l => l

def leaveToStr (p : ClassProps) : String :=
  match p.leaveTo with
  | none => p.enterFrom
  | some l => l

def leaveClasses (p : ClassProps) : List String := classes (leaveStr p)

def leaveFromClasses (p : ClassProps) : List String := classes (leaveFromStr p)

def leaveToClasses (p : ClassProps) : List String := classes (leaveToStr p)

/-! ## `transitionEnd` — part_000 lines 132–142
Returns an immediately resolved wait when the class list is empty, otherwise
registers a `transitionend` listener with `{ once: true }` whose handler
calls `e.stopPropagation()` and resolves. -/

structure ListenerState where
  registered : Bool
  resolved : Bool
  stopped : Bool
deriving DecidableEq, Repr

inductive TransitionWait where
  | immediate
  | pending (ls : ListenerState)
deriving DecidableEq, Repr

def transitionEnd (transitions : List String) : TransitionWait :=
  if transitions.length = 0 then .immediate else .pending ⟨true, false, false⟩

/-- One native `transitionend` signal arriving at the element: the handler runs
only while registered; it stops propagation, resolves, and (because of
`once: true`) deregisters itself. -/
def fireTransitionEnd (ls : ListenerState) : ListenerState :=
  if ls.registered then ⟨false, true, true⟩ else ls

/-- The listener state after `k` native `transitionend` signals. -/
def fireTimes : Nat → ListenerState
  | 0 => ⟨true, false, false⟩
  | k + 1 => fireTransitionEnd (fireTimes k)

/-! ## `childrenCompleted` gate — part_000 lines 144–158
```
return context.count
  ? new Promise(resolve => {
      let count = 0
      context.completed = () => {
        if (++count === context.count) { resolve() }
        return parentCompleted
      }
    })
  : Promise.resolve()
```
`context.count` is read *live* at each call of the closure, not snapshotted. -/

structure GateState where
  arrivals : Nat
  resolveCalls : Nat
deriving DecidableEq, Repr

def gateInit : GateState := ⟨0, 0⟩

/-- One invocation of `context.completed`, with the value `context.count`
holds at the moment of the call. -/
def completedCall (ctxCount : Nat) (g : GateState) : GateState :=
  if g.arrivals + 1 = ctxCount then ⟨g.arrivals + 1, g.resolveCalls + 1⟩
  else ⟨g.arrivals + 1, g.resolveCalls⟩

inductive ChildrenWait where
  | immediate
  | gate (g : GateState)
deriving DecidableEq, Repr

def childrenCompleted (ctxCount : Nat) : ChildrenWait :=
  if ctxCount = 0 then .immediate else .gate gateInit

/-- `k` report calls against a gate while `context.count` stays constant `N`. -/
def reportIter (N : Nat) : Nat → GateState
  | 0 => gateInit
  | k + 1 => completedCall N (reportIter N k)

/-- Report calls against a gate where the i-th call observes live count
`counts[i]` (modelling subscribes/teardowns mutating `context.count`
while the activation is in flight). -/
def completedCallsOver (counts : List Nat) : GateState :=
  counts.foldl (fun g c => completedCall c g) gateInit

/-! ## `execute` run flag — part_000 lines 225–239
`let run = context.appear` then on each call
`executing = run ? (show ? enter() : leave()) : Promise.resolve(); run = true`. -/

/-- One `execute(show)` call: returns `some show` when an enter (`true`) or
leave (`false`) activation was started, `none` when nothing animates,
together with the updated run flag. -/
def executeOne (run : Bool) (showB : Bool) : Option Bool × Bool :=
  (if run then some showB else none, true)

/-- The activations started by a sequence of `execute` calls, starting from
run flag `run` (for a top-level node, `context.appear = appear`). -/
def executeSeq (run : Bool) : List Bool → List (Option Bool)
  | [] => []
  | showB :: rest =>
      let r := executeOne run showB
      r.1 :: executeSeq r.2 rest

/-! ## Initial render state — part_000 lines 100–102, 193–199, 214–223
`let display = $state(show && !context.appear ? 'contents' : 'none')`,
`let mounted = $state(!unmount || show === true)`; `ensureMountedElement`
mounts an unmounted node at the start of `apply`. -/

def displayInit (showB : Option Bool) (ctxAppear : Bool) : String :=
  if showB = some true ∧ ctxAppear = false then "contents" else "none"

def mountedInit (unmount : Bool) (showB : Option Bool) : Bool :=
  !unmount || showB == some true

/-- `ensureMountedElement`: `if (unmount && !mounted) { mounted = true; await tick() }`. -/
def ensureMountedElement (unmount mounted : Bool) : Bool :=
  if unmount && !mounted then true else mounted

/-- The value of `mounted` observed during the activation started by the
initial `execute(show)` of a top-level node: `run = appear`, so with
`appear` set the initial call runs `enter`/`leave`, whose `apply` calls
`ensureMountedElement`; with `appear` unset nothing runs. -/
def mountedDuringInitialExecute (showB appear unmount : Bool) : Bool :=
  if appear then ensureMountedElement unmount (mountedInit unmount (some showB))
  else mountedInit unmount (some showB)

/-! ## Observable events of one activation

Each activation of `apply` (plus its `enter`/`leave` wrapper) emits an
ordered trace of observable events: class-list mutations, dispatches, the
gate install, the show broadcast, and resolutions of the awaited promises. -/

inductive Ev where
  | evBefore        -- dispatch of the before-enter / before-leave signal
  | installGate     -- `context.completed` replaced by this activation's gate
  | broadcast       -- `set(show)`: show value broadcast to descendants
  | addBaseFrom     -- `addClasses(...base, ...from)`
  | registerL       -- `addEventListener('transitionend', ..., { once: true })`
  | frame           -- one `requestAnimationFrame` boundary
  | removeFrom      -- `removeClasses(...from)`
  | addTo           -- `addClasses(...to)`
  | tFire           -- the element's native `transitionend` signal fired
  | report          -- a descendant invoked `context.completed`
  | gateResolved    -- the children gate's promise resolved
  | parentReport    -- this node invoked `parent.completed()`
  | parentDone      -- the parent completion chain resolved
  | removeFinal     -- `removeClasses(...base, ...to)`
  | resolveOwn      -- `resolveCompleted()`
  | evAfter         -- dispatch of the after-enter / after-leave signal
  | act2Before      -- a second, queued activation began (its before dispatch)
  | act2AddBaseFrom -- the second activation applied its base+from classes
deriving DecidableEq, Repr

/-- Boolean list membership over events. -/
def memB (x : Ev) : List Ev → Bool
  | [] => false
  | e :: rest => x == e || memB x rest

/-- `beforeB a b l`: some occurrence of `b` strictly follows the first
occurrence of `a` in `l`. -/
def beforeB (a b : Ev) : List Ev → Bool
  | [] => false
  | e :: rest => if e == a then memB b rest else beforeB a b rest

theorem memB_append (x : Ev) (l1 l2 : List Ev) :
    memB x (l1 ++ l2) = (memB x l1 || memB x l2) := by
  induction l1 with
  | nil => simp [memB]
  | cons e rest ih => simp [memB, ih, Bool.or_assoc]

theorem memB_append_left (x : Ev) (l1 l2 : List Ev)
    (h : memB x l1 = true) : memB x (l1 ++ l2) = true := by
  rw [memB_append, h, Bool.true_or]

theorem memB_append_right (x : Ev) (l1 l2 : List Ev)
    (h : memB x l2 = true) : memB x (l1 ++ l2) = true := by
  rw [memB_append, h, Bool.or_true]

theorem beforeB_append_left (a b : Ev) (l1 l2 : List Ev)
    (h : beforeB a b l1 = true) : beforeB a b (l1 ++ l2) = true := by
  induction l1 with
  | nil => simp [beforeB] at h
  | cons e rest ih =>
    simp only [List.cons_append, beforeB] at h ⊢
    by_cases he : (e == a) = true
    · rw [if_pos he] at h
      rw [if_pos he]
      exact memB_append_left b rest l2 h
    · rw [if_neg he] at h
      rw [if_neg he]
      exact ih h

theorem beforeB_append_right (a b : Ev) (l1 l2 : List Ev)
    (h1 : memB a l1 = true) (h2 : memB b l2 = true) :
    beforeB a b (l1 ++ l2) = true := by
  induction l1 with
  | nil => simp [memB] at h1
  | cons e rest ih =>
    simp only [memB, Bool.or_eq_true] at h1
    simp only [List.cons_append, beforeB]
    by_cases he : (e == a) = true
    · rw [if_pos he]
      exact memB_append_right b rest l2 h2
    · rw [if_neg he]
      rcases h1 with h1 | h1
      · exfalso
        rw [beq_iff_eq] at h1
        subst h1
        simp at he
      · exact ih h1

/-! ## Activation machine for the part_000 variant (`apply`, lines 160–191)

One activation of a node, embedded as a command-driven state machine.  The
`prog` command resumes the activation coroutine for one atomic step; the
remaining commands are environment signals (frame boundaries, the native
`transitionend` event, descendant reports, the parent chain resolving, a
top-level `show` update).  Universally quantifying over command scripts
quantifies over all schedules of these signals. -/

inductive MPhase where
  | beforeEv      -- about to dispatch the before signal
  | ensureMount   -- `el = await ensureMountedElement()`
  | installing    -- `const children = childrenCompleted(completed)`
  | broadcasting  -- `set(show)`
  | addingBaseFrom
  | registering   -- `const transitioned = transitionEnd(base)`
  | frameWait     -- `await nextFrame()` (double requestAnimationFrame)
  | removingFrom
  | addingTo
  | jointWait     -- `await Promise.all([transitioned, children])`
  | parentCalling -- `if (parent) await parent.completed()` — the call
  | parentWaiting -- — the wait on the returned promise
  | removingFinal -- `removeClasses(...base, ...to)`
  | resolving     -- `resolveCompleted()`
  | afterEv       -- dispatch of the after signal
  | done
deriving DecidableEq, Repr

def MPhase.rank : MPhase → Nat
  | .beforeEv => 0
  | .ensureMount => 1
  | .installing => 2
  | .broadcasting => 3
  | .addingBaseFrom => 4
  | .registering => 5
  | .frameWait => 6
  | .removingFrom => 7
  | .addingTo => 8
  | .jointWait => 9
  | .parentCalling => 10
  | .parentWaiting => 11
  | .removingFinal => 12
  | .resolving => 13
  | .afterEv => 14
  | .done => 15

structure MConfig where
  count : Nat           -- `context.count` at activation start (held constant;
                        -- live-count mutation is modelled by `completedCallsOver`)
  base : List String
  froms : List String
  tos : List String
  hasParent : Bool
  unmount : Bool
  mounted0 : Bool

structure MState where
  phase : MPhase
  frames : Nat          -- requestAnimationFrame boundaries seen by `nextFrame`
  listener : Bool       -- transitionend listener registered and not yet fired
  tDone : Bool          -- the `transitioned` promise has resolved
  arrivals : Nat        -- the gate closure's captured `count`
  gDone : Bool          -- the `children` promise has resolved
  pDone : Bool          -- the parent completion chain has resolved
  mounted : Bool
  pending : Bool        -- a top-level update queued via `executing.then(...)`
  trace : List Ev
deriving DecidableEq, Repr

def minit (cfg : MConfig) : MState :=
  ⟨.beforeEv, 0, false, false, 0, false, false, cfg.mounted0, false, []⟩

inductive Cmd where
  | prog        -- the activation coroutine resumes to its next suspension point
  | frame       -- a render frame boundary (requestAnimationFrame callback)
  | tFire       -- the element's `transitionend` event fires
  | report      -- a descendant calls `context.completed`
  | parentDone  -- the parent completion chain resolves
  | update      -- the `show` input changes; part_000 queues `executing.then(...)`
  | kick        -- the queued `.then` callback runs once `executing` resolved
deriving DecidableEq, Repr

def mstep (cfg : MConfig) (s : MState) : Cmd → MState
  | .prog =>
    match s.phase with
    | .beforeEv => { s with phase := .ensureMount, trace := s.trace ++ [.evBefore] }
    | .ensureMount =>
        { s with phase := .installing, mounted := s.mounted || cfg.unmount }
    | .installing =>
        if cfg.count = 0 then { s with phase := .broadcasting, gDone := true }
        else { s with phase := .broadcasting, trace := s.trace ++ [.installGate] }
    | .broadcasting => { s with phase := .addingBaseFrom, trace := s.trace ++ [.broadcast] }
    | .addingBaseFrom => { s with phase := .registering, trace := s.trace ++ [.addBaseFrom] }
    | .registering =>
        if cfg.base = [] then { s with phase := .frameWait, tDone := true }
        else { s with phase := .frameWait, listener := true, trace := s.trace ++ [.registerL] }
    | .frameWait =>
        if 2 ≤ s.frames then { s with phase := .removingFrom } else s
    | .removingFrom => { s with phase := .addingTo, trace := s.trace ++ [.removeFrom] }
    | .addingTo => { s with phase := .jointWait, trace := s.trace ++ [.addTo] }
    | .jointWait =>
        if s.tDone && s.gDone then
          if cfg.hasParent then { s with phase := .parentCalling }
          else { s with phase := .removingFinal }
        else s
    | .parentCalling => { s with phase := .parentWaiting, trace := s.trace ++ [.parentReport] }
    | .parentWaiting => if s.pDone then { s with phase := .removingFinal } else s
    | .removingFinal => { s with phase := .resolving, trace := s.trace ++ [.removeFinal] }
    | .resolving => { s with phase := .afterEv, trace := s.trace ++ [.resolveOwn] }
    | .afterEv => { s with phase := .done, trace := s.trace ++ [.evAfter] }
    | .done => s
  | .frame =>
    if s.phase = .frameWait ∧ s.frames < 2 then
      { s with frames := s.frames + 1, trace := s.trace ++ [.frame] }
    else s
  | .tFire =>
    if s.listener then
      { s with listener := false, tDone := true, trace := s.trace ++ [.tFire] }
    else s
  | .report =>
    -- before `childrenCompleted` has run (or when count = 0), `context.completed`
    -- is still the no-op `() => {}` from construction; arrivals are not counted
    if 3 ≤ s.phase.rank ∧ cfg.count ≠ 0 then
      if s.arrivals + 1 = cfg.count ∧ s.gDone = false then
        { s with arrivals := s.arrivals + 1, gDone := true,
                 trace := s.trace ++ [.report, .gateResolved] }
      else { s with arrivals := s.arrivals + 1, trace := s.trace ++ [.report] }
    else { s with trace := s.trace ++ [.report] }
  | .parentDone =>
    if s.pDone then s else { s with pDone := true, trace := s.trace ++ [.parentDone] }
  | .update => { s with pending := true }
  | .kick =>
    -- `executing.then(() => execute(show))`: the queued activation's `execute`
    -- runs only once the in-flight activation's promise has resolved
    if s.pending ∧ s.phase = .done then
      { s with pending := false, trace := s.trace ++ [.act2Before, .act2AddBaseFrom] }
    else s

def mrun (cfg : MConfig) (script : List Cmd) : MState :=
  script.foldl (mstep cfg) (minit cfg)

theorem memB_of_append {x : Ev} {l es : List Ev} (hnot : memB x es = false)
    (h : memB x (l ++ es) = true) : memB x l = true := by
  rw [memB_append, hnot, Bool.or_false] at h
  exact h

/-- Inductive invariant of the part_000 activation machine.  The first ten
conjuncts are bookkeeping; the last four are the ordering properties the
claims are about. -/
def Inv (cfg : MConfig) (s : MState) : Prop :=
  (7 ≤ s.phase.rank → 2 ≤ s.frames) ∧
  (5 ≤ s.phase.rank → memB .addBaseFrom s.trace = true) ∧
  (3 ≤ s.phase.rank → cfg.count ≠ 0 → memB .installGate s.trace = true) ∧
  (9 ≤ s.phase.rank → memB .addTo s.trace = true) ∧
  (s.tDone = true → cfg.base = [] ∨ memB .tFire s.trace = true) ∧
  (s.gDone = true → cfg.count = 0 ∨ memB .gateResolved s.trace = true) ∧
  (10 ≤ s.phase.rank → s.tDone = true ∧ s.gDone = true) ∧
  (s.phase = .done → memB .evAfter s.trace = true) ∧
  (s.listener = true → s.tDone = false) ∧
  (s.phase.rank ≤ 5 → s.tDone = false ∧ s.listener = false) ∧
  (memB .removeFrom s.trace = true →
      beforeB .addBaseFrom .removeFrom s.trace = true ∧ 2 ≤ s.frames) ∧
  (memB .removeFinal s.trace = true →
      beforeB .addTo .removeFinal s.trace = true ∧
      (cfg.base ≠ [] → beforeB .tFire .removeFinal s.trace = true) ∧
      (cfg.count ≠ 0 → beforeB .gateResolved .removeFinal s.trace = true)) ∧
  (memB .broadcast s.trace = true → cfg.count ≠ 0 →
      beforeB .installGate .broadcast s.trace = true) ∧
  (memB .act2Before s.trace = true → beforeB .evAfter .act2Before s.trace = true)

theorem Inv_minit (cfg : MConfig) : Inv cfg (minit cfg) := by
  refine ⟨?_, ?_, ?_, ?_, ?_, ?_, ?_, ?_, ?_, ?_, ?_, ?_, ?_, ?_⟩ <;>
    simp [minit, MPhase.rank, memB]

theorem Inv_step (cfg : MConfig) (s : MState) (c : Cmd) (h : Inv cfg s) :
    Inv cfg (mstep cfg s c) := by
  unfold Inv at h
  obtain ⟨h1, h2, h3, h4, h5, h6, h7, h8, h9, h10, h11, h12, h13, h14⟩ := h
  cases c with
  | prog =>
    cases hp : s.phase with
    | beforeEv =>
      simp only [mstep, hp]
      unfold Inv
      refine ⟨?_, ?_, ?_, ?_, ?_, ?_, ?_, ?_, ?_, ?_, ?_, ?_, ?_, ?_⟩
      · intro hr; simp [MPhase.rank] at hr
      · intro hr; simp [MPhase.rank] at hr
      · intro hr; simp [MPhase.rank] at hr
      · intro hr; simp [MPhase.rank] at hr
      · intro ht; exact (h5 ht).imp id (memB_append_left _ _ _)
      · intro hg; exact (h6 hg).imp id (memB_append_left _ _ _)
      · intro hr; simp [MPhase.rank] at hr
      · intro hd; simp at hd
      · exact h9
      · intro _; exact h10 (by rw [hp]; decide)
      · intro hm
        have hm2 := memB_of_append (by decide) hm
        exact ⟨beforeB_append_left _ _ _ _ (h11 hm2).1, (h11 hm2).2⟩
      · intro hm
        have hm2 := memB_of_append (by decide) hm
        obtain ⟨ha, hb, hc⟩ := h12 hm2
        exact ⟨beforeB_append_left _ _ _ _ ha,
               fun hx => beforeB_append_left _ _ _ _ (hb hx),
               fun hx => beforeB_append_left _ _ _ _ (hc hx)⟩
      · intro hm hcc
        exact beforeB_append_left _ _ _ _ (h13 (memB_of_append (by decide) hm) hcc)
      · intro hm
        exact beforeB_append_left _ _ _ _ (h14 (memB_of_append (by decide) hm))
    | ensureMount =>
      simp only [mstep, hp]
      unfold Inv
      refine ⟨?_, ?_, ?_, ?_, ?_, ?_, ?_, ?_, ?_, ?_, ?_, ?_, ?_, ?_⟩
      · intro hr; simp [MPhase.rank] at hr
      · intro hr; simp [MPhase.rank] at hr
      · intro hr; simp [MPhase.rank] at hr
      · intro hr; simp [MPhase.rank] at hr
      · exact h5
      · exact h6
      · intro hr; simp [MPhase.rank] at hr
      · intro hd; simp at hd
      · exact h9
      · intro _; exact h10 (by rw [hp]; decide)
      · exact h11
      · exact h12
      · exact h13
      · exact h14
    | installing =>
      simp only [mstep, hp]
      by_cases hc0 : cfg.count = 0
      · rw [if_pos hc0]
        unfold Inv
        refine ⟨?_, ?_, ?_, ?_, ?_, ?_, ?_, ?_, ?_, ?_, ?_, ?_, ?_, ?_⟩
        · intro hr; simp [MPhase.rank] at hr
        · intro hr; simp [MPhase.rank] at hr
        · intro _ hcc; exact absurd hc0 hcc
        · intro hr; simp [MPhase.rank] at hr
        · exact h5
        · intro _; exact Or.inl hc0
        · intro hr; simp [MPhase.rank] at hr
        · intro hd; simp at hd
        · exact h9
        · intro _; exact h10 (by rw [hp]; decide)
        · exact h11
        · exact h12
        · exact h13
        · exact h14
      · rw [if_neg hc0]
        unfold Inv
        refine ⟨?_, ?_, ?_, ?_, ?_, ?_, ?_, ?_, ?_, ?_, ?_, ?_, ?_, ?_⟩
        · intro hr; simp [MPhase.rank] at hr
        · intro hr; simp [MPhase.rank] at hr
        · intro _ _; exact memB_append_right _ _ _ (by decide)
        · intro hr; simp [MPhase.rank] at hr
        · intro ht; exact (h5 ht).imp id (memB_append_left _ _ _)
        · intro hg; exact (h6 hg).imp id (memB_append_left _ _ _)
        · intro hr; simp [MPhase.rank] at hr
        · intro hd; simp at hd
        · exact h9
        · intro _; exact h10 (by rw [hp]; decide)
        · intro hm
          have hm2 := memB_of_append (by decide) hm
          exact ⟨beforeB_append_left _ _ _ _ (h11 hm2).1, (h11 hm2).2⟩
        · intro hm
          have hm2 := memB_of_append (by decide) hm
          obtain ⟨ha, hb, hc⟩ := h12 hm2
          exact ⟨beforeB_append_left _ _ _ _ ha,
                 fun hx => beforeB_append_left _ _ _ _ (hb hx),
                 fun hx => beforeB_append_left _ _ _ _ (hc hx)⟩
        · intro hm hcc
          exact beforeB_append_left _ _ _ _ (h13 (memB_of_append (by decide) hm) hcc)
        · intro hm
          exact beforeB_append_left _ _ _ _ (h14 (memB_of_append (by decide) hm))
    | broadcasting =>
      simp only [mstep, hp]
      unfold Inv
      refine ⟨?_, ?_, ?_, ?_, ?_, ?_, ?_, ?_, ?_, ?_, ?_, ?_, ?_, ?_⟩
      · intro hr; simp [MPhase.rank] at hr
      · intro hr; simp [MPhase.rank] at hr
      · intro _ hcc; exact memB_append_left _ _ _ (h3 (by rw [hp]; decide) hcc)
      · intro hr; simp [MPhase.rank] at hr
      · intro ht; exact (h5 ht).imp id (memB_append_left _ _ _)
      · intro hg; exact (h6 hg).imp id (memB_append_left _ _ _)
      · intro hr; simp [MPhase.rank] at hr
      · intro hd; simp at hd
      · exact h9
      · intro _; exact h10 (by rw [hp]; decide)
      · intro hm
        have hm2 := memB_of_append (by decide) hm
        exact ⟨beforeB_append_left _ _ _ _ (h11 hm2).1, (h11 hm2).2⟩
      · intro hm
        have hm2 := memB_of_append (by decide) hm
        obtain ⟨ha, hb, hc⟩ := h12 hm2
        exact ⟨beforeB_append_left _ _ _ _ ha,
               fun hx => beforeB_append_left _ _ _ _ (hb hx),
               fun hx => beforeB_append_left _ _ _ _ (hc hx)⟩
      · intro _ hcc
        exact beforeB_append_right _ _ _ _ (h3 (by rw [hp]; decide) hcc) (by decide)
      · intro hm
        exact beforeB_append_left _ _ _ _ (h14 (memB_of_append (by decide) hm))
    | addingBaseFrom =>
      simp only [mstep, hp]
      unfold Inv
      refine ⟨?_, ?_, ?_, ?_, ?_, ?_, ?_, ?_, ?_, ?_, ?_, ?_, ?_, ?_⟩
      · intro hr; simp [MPhase.rank] at hr
      · intro _; exact memB_append_right _ _ _ (by decide)
      · intro _ hcc; exact memB_append_left _ _ _ (h3 (by rw [hp]; decide) hcc)
      · intro hr; simp [MPhase.rank] at hr
      · intro ht; exact (h5 ht).imp id (memB_append_left _ _ _)
      · intro hg; exact (h6 hg).imp id (memB_append_left _ _ _)
      · intro hr; simp [MPhase.rank] at hr
      · intro hd; simp at hd
      · exact h9
      · intro _; exact h10 (by rw [hp]; decide)
      · intro hm
        have hm2 := memB_of_append (by decide) hm
        exact ⟨beforeB_append_left _ _ _ _ (h11 hm2).1, (h11 hm2).2⟩
      · intro hm
        have hm2 := memB_of_append (by decide) hm
        obtain ⟨ha, hb, hc⟩ := h12 hm2
        exact ⟨beforeB_append_left _ _ _ _ ha,
               fun hx => beforeB_append_left _ _ _ _ (hb hx),
               fun hx => beforeB_append_left _ _ _ _ (hc hx)⟩
      · intro hm hcc
        exact beforeB_append_left _ _ _ _ (h13 (memB_of_append (by decide) hm) hcc)
      · intro hm
        exact beforeB_append_left _ _ _ _ (h14 (memB_of_append (by decide) hm))
    | registering =>
      simp only [mstep, hp]
      by_cases hb : cfg.base = []
      · rw [if_pos hb]
        unfold Inv
        refine ⟨?_, ?_, ?_, ?_, ?_, ?_, ?_, ?_, ?_, ?_, ?_, ?_, ?_, ?_⟩
        · intro hr; simp [MPhase.rank] at hr
        · intro _; exact h2 (by rw [hp]; decide)
        · intro _ hcc; exact h3 (by rw [hp]; decide) hcc
        · intro hr; simp [MPhase.rank] at hr
        · intro _; exact Or.inl hb
        · exact h6
        · intro hr; simp [MPhase.rank] at hr
        · intro hd; simp at hd
        · intro hl
          rw [(h10 (by rw [hp]; decide)).2] at hl
          exact absurd hl (by decide)
        · intro hr; simp [MPhase.rank] at hr
        · exact h11
        · exact h12
        · exact h13
        · exact h14
      · rw [if_neg hb]
        unfold Inv
        refine ⟨?_, ?_, ?_, ?_, ?_, ?_, ?_, ?_, ?_, ?_, ?_, ?_, ?_, ?_⟩
        · intro hr; simp [MPhase.rank] at hr
        · intro _; exact memB_append_left _ _ _ (h2 (by rw [hp]; decide))
        · intro _ hcc; exact memB_append_left _ _ _ (h3 (by rw [hp]; decide) hcc)
        · intro hr; simp [MPhase.rank] at hr
        · intro ht; exact (h5 ht).imp id (memB_append_left _ _ _)
        · intro hg; exact (h6 hg).imp id (memB_append_left _ _ _)
        · intro hr; simp [MPhase.rank] at hr
        · intro hd; simp at hd
        · intro _; exact (h10 (by rw [hp]; decide)).1
        · intro hr; simp [MPhase.rank] at hr
        · intro hm
          have hm2 := memB_of_append (by decide) hm
          exact ⟨beforeB_append_left _ _ _ _ (h11 hm2).1, (h11 hm2).2⟩
        · intro hm
          have hm2 := memB_of_append (by decide) hm
          obtain ⟨ha, hb2, hc⟩ := h12 hm2
          exact ⟨beforeB_append_left _ _ _ _ ha,
                 fun hx => beforeB_append_left _ _ _ _ (hb2 hx),
                 fun hx => beforeB_append_left _ _ _ _ (hc hx)⟩
        · intro hm hcc
          exact beforeB_append_left _ _ _ _ (h13 (memB_of_append (by decide) hm) hcc)
        · intro hm
          exact beforeB_append_left _ _ _ _ (h14 (memB_of_append (by decide) hm))
    | frameWait =>
      simp only [mstep, hp]
      by_cases hf : 2 ≤ s.frames
      · rw [if_pos hf]
        unfold Inv
        refine ⟨?_, ?_, ?_, ?_, ?_, ?_, ?_, ?_, ?_, ?_, ?_, ?_, ?_, ?_⟩
        · intro _; exact hf
        · intro _; exact h2 (by rw [hp]; decide)
        · intro _ hcc; exact h3 (by rw [hp]; decide) hcc
        · intro hr; simp [MPhase.rank] at hr
        · exact h5
        · exact h6
        · intro hr; simp [MPhase.rank] at hr
        · intro hd; simp at hd
        · exact h9
        · intro hr; simp [MPhase.rank] at hr
        · exact h11
        · exact h12
        · exact h13
        · exact h14
      · rw [if_neg hf]
        exact ⟨h1, h2, h3, h4, h5, h6, h7, h8, h9, h10, h11, h12, h13, h14⟩
    | removingFrom =>
      simp only [mstep, hp]
      unfold Inv
      refine ⟨?_, ?_, ?_, ?_, ?_, ?_, ?_, ?_, ?_, ?_, ?_, ?_, ?_, ?_⟩
      · intro _; exact h1 (by rw [hp]; decide)
      · intro _; exact memB_append_left _ _ _ (h2 (by rw [hp]; decide))
      · intro _ hcc; exact memB_append_left _ _ _ (h3 (by rw [hp]; decide) hcc)
      · intro hr; simp [MPhase.rank] at hr
      · intro ht; exact (h5 ht).imp id (memB_append_left _ _ _)
      · intro hg; exact (h6 hg).imp id (memB_append_left _ _ _)
      · intro hr; simp [MPhase.rank] at hr
      · intro hd; simp at hd
      · exact h9
      · intro hr; simp [MPhase.rank] at hr
      · intro _
        exact ⟨beforeB_append_right _ _ _ _ (h2 (by rw [hp]; decide)) (by decide),
               h1 (by rw [hp]; decide)⟩
      · intro hm
        have hm2 := memB_of_append (by decide) hm
        obtain ⟨ha, hb, hc⟩ := h12 hm2
        exact ⟨beforeB_append_left _ _ _ _ ha,
               fun hx => beforeB_append_left _ _ _ _ (hb hx),
               fun hx => beforeB_append_left _ _ _ _ (hc hx)⟩
      · intro hm hcc
        exact beforeB_append_left _ _ _ _ (h13 (memB_of_append (by decide) hm) hcc)
      · intro hm
        exact beforeB_append_left _ _ _ _ (h14 (memB_of_append (by decide) hm))
    | addingTo =>
      simp only [mstep, hp]
      unfold Inv
      refine ⟨?_, ?_, ?_, ?_, ?_, ?_, ?_, ?_, ?_, ?_, ?_, ?_, ?_, ?_⟩
      · intro _; exact h1 (by rw [hp]; decide)
      · intro _; exact memB_append_left _ _ _ (h2 (by rw [hp]; decide))
      · intro _ hcc; exact memB_append_left _ _ _ (h3 (by rw [hp]; decide) hcc)
      · intro _; exact memB_append_right _ _ _ (by decide)
      · intro ht; exact (h5 ht).imp id (memB_append_left _ _ _)
      · intro hg; exact (h6 hg).imp id (memB_append_left _ _ _)
      · intro hr; simp [MPhase.rank] at hr
      · intro hd; simp at hd
      · exact h9
      · intro hr; simp [MPhase.rank] at hr
      · intro hm
        have hm2 := memB_of_append (by decide) hm
        exact ⟨beforeB_append_left _ _ _ _ (h11 hm2).1, (h11 hm2).2⟩
      · intro hm
        have hm2 := memB_of_append (by decide) hm
        obtain ⟨ha, hb, hc⟩ := h12 hm2
        exact ⟨beforeB_append_left _ _ _ _ ha,
               fun hx => beforeB_append_left _ _ _ _ (hb hx),
               fun hx => beforeB_append_left _ _ _ _ (hc hx)⟩
      · intro hm hcc
        exact beforeB_append_left _ _ _ _ (h13 (memB_of_append (by decide) hm) hcc)
      · intro hm
        exact beforeB_append_left _ _ _ _ (h14 (memB_of_append (by decide) hm))
    | jointWait =>
      simp only [mstep, hp]
      by_cases hg : (s.tDone && s.gDone) = true
      · rw [if_pos hg]
        rw [Bool.and_eq_true] at hg
        by_cases hpar : cfg.hasParent = true
        · rw [if_pos hpar]
          unfold Inv
          refine ⟨?_, ?_, ?_, ?_, ?_, ?_, ?_, ?_, ?_, ?_, ?_, ?_, ?_, ?_⟩
          · intro _; exact h1 (by rw [hp]; decide)
          · intro _; exact h2 (by rw [hp]; decide)
          · intro _ hcc; exact h3 (by rw [hp]; decide) hcc
          · intro _; exact h4 (by rw [hp]; decide)
          · exact h5
          · exact h6
          · intro _; exact hg
          · intro hd; simp at hd
          · exact h9
          · intro hr; simp [MPhase.rank] at hr
          · exact h11
          · exact h12
          · exact h13
          · exact h14
        · rw [if_neg hpar]
          unfold Inv
          refine ⟨?_, ?_, ?_, ?_, ?_, ?_, ?_, ?_, ?_, ?_, ?_, ?_, ?_, ?_⟩
          · intro _; exact h1 (by rw [hp]; decide)
          · intro _; exact h2 (by rw [hp]; decide)
          · intro _ hcc; exact h3 (by rw [hp]; decide) hcc
          · intro _; exact h4 (by rw [hp]; decide)
          · exact h5
          · exact h6
          · intro _; exact hg
          · intro hd; simp at hd
          · exact h9
          · intro hr; simp [MPhase.rank] at hr
          · exact h11
          · exact h12
          · exact h13
          · exact h14
      · rw [if_neg hg]
        exact ⟨h1, h2, h3, h4, h5, h6, h7, h8, h9, h10, h11, h12, h13, h14⟩
    | parentCalling =>
      simp only [mstep, hp]
      unfold Inv
      refine ⟨?_, ?_, ?_, ?_, ?_, ?_, ?_, ?_, ?_, ?_, ?_, ?_, ?_, ?_⟩
      · intro _; exact h1 (by rw [hp]; decide)
      · intro _; exact memB_append_left _ _ _ (h2 (by rw [hp]; decide))
      · intro _ hcc; exact memB_append_left _ _ _ (h3 (by rw [hp]; decide) hcc)
      · intro _; exact memB_append_left _ _ _ (h4 (by rw [hp]; decide))
      · intro ht; exact (h5 ht).imp id (memB_append_left _ _ _)
      · intro hg; exact (h6 hg).imp id (memB_append_left _ _ _)
      · intro _; exact h7 (by rw [hp]; decide)
      · intro hd; simp at hd
      · exact h9
      · intro hr; simp [MPhase.rank] at hr
      · intro hm
        have hm2 := memB_of_append (by decide) hm
        exact ⟨beforeB_append_left _ _ _ _ (h11 hm2).1, (h11 hm2).2⟩
      · intro hm
        have hm2 := memB_of_append (by decide) hm
        obtain ⟨ha, hb, hc⟩ := h12 hm2
        exact ⟨beforeB_append_left _ _ _ _ ha,
               fun hx => beforeB_append_left _ _ _ _ (hb hx),
               fun hx => beforeB_append_left _ _ _ _ (hc hx)⟩
      · intro hm hcc
        exact beforeB_append_left _ _ _ _ (h13 (memB_of_append (by decide) hm) hcc)
      · intro hm
        exact beforeB_append_left _ _ _ _ (h14 (memB_of_append (by decide) hm))
    | parentWaiting =>
      simp only [mstep, hp]
      by_cases hpd : s.pDone = true
      · rw [if_pos hpd]
        unfold Inv
        refine ⟨?_, ?_, ?_, ?_, ?_, ?_, ?_, ?_, ?_, ?_, ?_, ?_, ?_, ?_⟩
        · intro _; exact h1 (by rw [hp]; decide)
        · intro _; exact h2 (by rw [hp]; decide)
        · intro _ hcc; exact h3 (by rw [hp]; decide) hcc
        · intro _; exact h4 (by rw [hp]; decide)
        · exact h5
        · exact h6
        · intro _; exact h7 (by rw [hp]; decide)
        · intro hd; simp at hd
        · exact h9
        · intro hr; simp [MPhase.rank] at hr
        · exact h11
        · exact h12
        · exact h13
        · exact h14
      · rw [if_neg hpd]
        exact ⟨h1, h2, h3, h4, h5, h6, h7, h8, h9, h10, h11, h12, h13, h14⟩
    | removingFinal =>
      simp only [mstep, hp]
      unfold Inv
      refine ⟨?_, ?_, ?_, ?_, ?_, ?_, ?_, ?_, ?_, ?_, ?_, ?_, ?_, ?_⟩
      · intro _; exact h1 (by rw [hp]; decide)
      · intro _; exact memB_append_left _ _ _ (h2 (by rw [hp]; decide))
      · intro _ hcc; exact memB_append_left _ _ _ (h3 (by rw [hp]; decide) hcc)
      · intro _; exact memB_append_left _ _ _ (h4 (by rw [hp]; decide))
      · intro ht; exact (h5 ht).imp id (memB_append_left _ _ _)
      · intro hg; exact (h6 hg).imp id (memB_append_left _ _ _)
      · intro _; exact h7 (by rw [hp]; decide)
      · intro hd; simp at hd
      · exact h9
      · intro hr; simp [MPhase.rank] at hr
      · intro hm
        have hm2 := memB_of_append (by decide) hm
        exact ⟨beforeB_append_left _ _ _ _ (h11 hm2).1, (h11 hm2).2⟩
      · intro _
        have htd := (h7 (by rw [hp]; decide)).1
        have hgd := (h7 (by rw [hp]; decide)).2
        refine ⟨beforeB_append_right _ _ _ _ (h4 (by rw [hp]; decide)) (by decide), ?_, ?_⟩
        · intro hbne
          rcases h5 htd with he | he
          · exact absurd he hbne
          · exact beforeB_append_right _ _ _ _ he (by decide)
        · intro hcc
          rcases h6 hgd with he | he
          · exact absurd he hcc
          · exact beforeB_append_right _ _ _ _ he (by decide)
      · intro hm hcc
        exact beforeB_append_left _ _ _ _ (h13 (memB_of_append (by decide) hm) hcc)
      · intro hm
        exact beforeB_append_left _ _ _ _ (h14 (memB_of_append (by decide) hm))
    | resolving =>
      simp only [mstep, hp]
      unfold Inv
      refine ⟨?_, ?_, ?_, ?_, ?_, ?_, ?_, ?_, ?_, ?_, ?_, ?_, ?_, ?_⟩
      · intro _; exact h1 (by rw [hp]; decide)
      · intro _; exact memB_append_left _ _ _ (h2 (by rw [hp]; decide))
      · intro _ hcc; exact memB_append_left _ _ _ (h3 (by rw [hp]; decide) hcc)
      · intro _; exact memB_append_left _ _ _ (h4 (by rw [hp]; decide))
      · intro ht; exact (h5 ht).imp id (memB_append_left _ _ _)
      · intro hg; exact (h6 hg).imp id (memB_append_left _ _ _)
      · intro _; exact h7 (by rw [hp]; decide)
      · intro hd; simp at hd
      · exact h9
      · intro hr; simp [MPhase.rank] at hr
      · intro hm
        have hm2 := memB_of_append (by decide) hm
        exact ⟨beforeB_append_left _ _ _ _ (h11 hm2).1, (h11 hm2).2⟩
      · intro hm
        have hm2 := memB_of_append (by decide) hm
        obtain ⟨ha, hb, hc⟩ := h12 hm2
        exact ⟨beforeB_append_left _ _ _ _ ha,
               fun hx => beforeB_append_left _ _ _ _ (hb hx),
               fun hx => beforeB_append_left _ _ _ _ (hc hx)⟩
      · intro hm hcc
        exact beforeB_append_left _ _ _ _ (h13 (memB_of_append (by decide) hm) hcc)
      · intro hm
        exact beforeB_append_left _ _ _ _ (h14 (memB_of_append (by decide) hm))
    | afterEv =>
      simp only [mstep, hp]
      unfold Inv
      refine ⟨?_, ?_, ?_, ?_, ?_, ?_, ?_, ?_, ?_, ?_, ?_, ?_, ?_, ?_⟩
      · intro _; exact h1 (by rw [hp]; decide)
      · intro _; exact memB_append_left _ _ _ (h2 (by rw [hp]; decide))
      · intro _ hcc; exact memB_append_left _ _ _ (h3 (by rw [hp]; decide) hcc)
      · intro _; exact memB_append_left _ _ _ (h4 (by rw [hp]; decide))
      · intro ht; exact (h5 ht).imp id (memB_append_left _ _ _)
      · intro hg; exact (h6 hg).imp id (memB_append_left _ _ _)
      · intro _; exact h7 (by rw [hp]; decide)
      · intro _; exact memB_append_right _ _ _ (by decide)
      · exact h9
      · intro hr; simp [MPhase.rank] at hr
      · intro hm
        have hm2 := memB_of_append (by decide) hm
        exact ⟨beforeB_append_left _ _ _ _ (h11 hm2).1, (h11 hm2).2⟩
      · intro hm
        have hm2 := memB_of_append (by decide) hm
        obtain ⟨ha, hb, hc⟩ := h12 hm2
        exact ⟨beforeB_append_left _ _ _ _ ha,
               fun hx => beforeB_append_left _ _ _ _ (hb hx),
               fun hx => beforeB_append_left _ _ _ _ (hc hx)⟩
      · intro hm hcc
        exact beforeB_append_left _ _ _ _ (h13 (memB_of_append (by decide) hm) hcc)
      · intro hm
        exact beforeB_append_left _ _ _ _ (h14 (memB_of_append (by decide) hm))
    | done =>
      simp only [mstep, hp]
      exact ⟨h1, h2, h3, h4, h5, h6, h7, h8, h9, h10, h11, h12, h13, h14⟩
  | frame =>
    simp only [mstep]
    by_cases hc : s.phase = .frameWait ∧ s.frames < 2
    · rw [if_pos hc]
      unfold Inv
      refine ⟨?_, ?_, ?_, ?_, ?_, ?_, ?_, ?_, ?_, ?_, ?_, ?_, ?_, ?_⟩
      · intro hr; simp [hc.1, MPhase.rank] at hr
      · intro hr; exact memB_append_left _ _ _ (h2 hr)
      · intro hr hcc; exact memB_append_left _ _ _ (h3 hr hcc)
      · intro hr; exact memB_append_left _ _ _ (h4 hr)
      · intro ht; exact (h5 ht).imp id (memB_append_left _ _ _)
      · intro hg; exact (h6 hg).imp id (memB_append_left _ _ _)
      · exact h7
      · intro hd; exact memB_append_left _ _ _ (h8 hd)
      · exact h9
      · exact h10
      · intro hm
        have hm2 := memB_of_append (by decide) hm
        exact ⟨beforeB_append_left _ _ _ _ (h11 hm2).1, Nat.le_succ_of_le (h11 hm2).2⟩
      · intro hm
        have hm2 := memB_of_append (by decide) hm
        obtain ⟨ha, hb, hcx⟩ := h12 hm2
        exact ⟨beforeB_append_left _ _ _ _ ha,
               fun hx => beforeB_append_left _ _ _ _ (hb hx),
               fun hx => beforeB_append_left _ _ _ _ (hcx hx)⟩
      · intro hm hcc
        exact beforeB_append_left _ _ _ _ (h13 (memB_of_append (by decide) hm) hcc)
      · intro hm
        exact beforeB_append_left _ _ _ _ (h14 (memB_of_append (by decide) hm))
    · rw [if_neg hc]
      exact ⟨h1, h2, h3, h4, h5, h6, h7, h8, h9, h10, h11, h12, h13, h14⟩
  | tFire =>
    simp only [mstep]
    by_cases hl : s.listener = true
    · rw [if_pos hl]
      unfold Inv
      refine ⟨?_, ?_, ?_, ?_, ?_, ?_, ?_, ?_, ?_, ?_, ?_, ?_, ?_, ?_⟩
      · exact h1
      · intro hr; exact memB_append_left _ _ _ (h2 hr)
      · intro hr hcc; exact memB_append_left _ _ _ (h3 hr hcc)
      · intro hr; exact memB_append_left _ _ _ (h4 hr)
      · intro _; exact Or.inr (memB_append_right _ _ _ (by decide))
      · intro hg; exact (h6 hg).imp id (memB_append_left _ _ _)
      · intro hr; exact ⟨rfl, (h7 hr).2⟩
      · intro hd; exact memB_append_left _ _ _ (h8 hd)
      · intro hl2; simp at hl2
      · intro hr; rw [(h10 hr).2] at hl; exact absurd hl (by decide)
      · intro hm
        have hm2 := memB_of_append (by decide) hm
        exact ⟨beforeB_append_left _ _ _ _ (h11 hm2).1, (h11 hm2).2⟩
      · intro hm
        have hm2 := memB_of_append (by decide) hm
        obtain ⟨ha, hb, hc⟩ := h12 hm2
        exact ⟨beforeB_append_left _ _ _ _ ha,
               fun hx => beforeB_append_left _ _ _ _ (hb hx),
               fun hx => beforeB_append_left _ _ _ _ (hc hx)⟩
      · intro hm hcc
        exact beforeB_append_left _ _ _ _ (h13 (memB_of_append (by decide) hm) hcc)
      · intro hm
        exact beforeB_append_left _ _ _ _ (h14 (memB_of_append (by decide) hm))
    · rw [if_neg hl]
      exact ⟨h1, h2, h3, h4, h5, h6, h7, h8, h9, h10, h11, h12, h13, h14⟩
  | report =>
    simp only [mstep]
    by_cases ho1 : 3 ≤ s.phase.rank ∧ cfg.count ≠ 0
    · rw [if_pos ho1]
      by_cases ho2 : s.arrivals + 1 = cfg.count ∧ s.gDone = false
      · rw [if_pos ho2]
        unfold Inv
        refine ⟨?_, ?_, ?_, ?_, ?_, ?_, ?_, ?_, ?_, ?_, ?_, ?_, ?_, ?_⟩
        · exact h1
        · intro hr; exact memB_append_left _ _ _ (h2 hr)
        · intro hr hcc; exact memB_append_left _ _ _ (h3 hr hcc)
        · intro hr; exact memB_append_left _ _ _ (h4 hr)
        · intro ht; exact (h5 ht).imp id (memB_append_left _ _ _)
        · intro _; exact Or.inr (memB_append_right _ _ _ (by decide))
        · intro hr; exact ⟨(h7 hr).1, rfl⟩
        · intro hd; exact memB_append_left _ _ _ (h8 hd)
        · exact h9
        · exact h10
        · intro hm
          have hm2 := memB_of_append (by decide) hm
          exact ⟨beforeB_append_left _ _ _ _ (h11 hm2).1, (h11 hm2).2⟩
        · intro hm
          have hm2 := memB_of_append (by decide) hm
          obtain ⟨ha, hb, hc⟩ := h12 hm2
          exact ⟨beforeB_append_left _ _ _ _ ha,
                 fun hx => beforeB_append_left _ _ _ _ (hb hx),
                 fun hx => beforeB_append_left _ _ _ _ (hc hx)⟩
        · intro hm hcc
          exact beforeB_append_left _ _ _ _ (h13 (memB_of_append (by decide) hm) hcc)
        · intro hm
          exact beforeB_append_left _ _ _ _ (h14 (memB_of_append (by decide) hm))
      · rw [if_neg ho2]
        unfold Inv
        refine ⟨?_, ?_, ?_, ?_, ?_, ?_, ?_, ?_, ?_, ?_, ?_, ?_, ?_, ?_⟩
        · exact h1
        · intro hr; exact memB_append_left _ _ _ (h2 hr)
        · intro hr hcc; exact memB_append_left _ _ _ (h3 hr hcc)
        · intro hr; exact memB_append_left _ _ _ (h4 hr)
        · intro ht; exact (h5 ht).imp id (memB_append_left _ _ _)
        · intro hg; exact (h6 hg).imp id (memB_append_left _ _ _)
        · exact h7
        · intro hd; exact memB_append_left _ _ _ (h8 hd)
        · exact h9
        · exact h10
        · intro hm
          have hm2 := memB_of_append (by decide) hm
          exact ⟨beforeB_append_left _ _ _ _ (h11 hm2).1, (h11 hm2).2⟩
        · intro hm
          have hm2 := memB_of_append (by decide) hm
          obtain ⟨ha, hb, hc⟩ := h12 hm2
          exact ⟨beforeB_append_left _ _ _ _ ha,
                 fun hx => beforeB_append_left _ _ _ _ (hb hx),
                 fun hx => beforeB_append_left _ _ _ _ (hc hx)⟩
        · intro hm hcc
          exact beforeB_append_left _ _ _ _ (h13 (memB_of_append (by decide) hm) hcc)
        · intro hm
          exact beforeB_append_left _ _ _ _ (h14 (memB_of_append (by decide) hm))
    · rw [if_neg ho1]
      unfold Inv
      refine ⟨?_, ?_, ?_, ?_, ?_, ?_, ?_, ?_, ?_, ?_, ?_, ?_, ?_, ?_⟩
      · exact h1
      · intro hr; exact memB_append_left _ _ _ (h2 hr)
      · intro hr hcc; exact memB_append_left _ _ _ (h3 hr hcc)
      · intro hr; exact memB_append_left _ _ _ (h4 hr)
      · intro ht; exact (h5 ht).imp id (memB_append_left _ _ _)
      · intro hg; exact (h6 hg).imp id (memB_append_left _ _ _)
      · exact h7
      · intro hd; exact memB_append_left _ _ _ (h8 hd)
      · exact h9
      · exact h10
      · intro hm
        have hm2 := memB_of_append (by decide) hm
        exact ⟨beforeB_append_left _ _ _ _ (h11 hm2).1, (h11 hm2).2⟩
      · intro hm
        have hm2 := memB_of_append (by decide) hm
        obtain ⟨ha, hb, hc⟩ := h12 hm2
        exact ⟨beforeB_append_left _ _ _ _ ha,
               fun hx => beforeB_append_left _ _ _ _ (hb hx),
               fun hx => beforeB_append_left _ _ _ _ (hc hx)⟩
      · intro hm hcc
        exact beforeB_append_left _ _ _ _ (h13 (memB_of_append (by decide) hm) hcc)
      · intro hm
        exact beforeB_append_left _ _ _ _ (h14 (memB_of_append (by decide) hm))
  | parentDone =>
    simp only [mstep]
    by_cases hpd : s.pDone = true
    · rw [if_pos hpd]
      exact ⟨h1, h2, h3, h4, h5, h6, h7, h8, h9, h10, h11, h12, h13, h14⟩
    · rw [if_neg hpd]
      unfold Inv
      refine ⟨?_, ?_, ?_, ?_, ?_, ?_, ?_, ?_, ?_, ?_, ?_, ?_, ?_, ?_⟩
      · exact h1
      · intro hr; exact memB_append_left _ _ _ (h2 hr)
      · intro hr hcc; exact memB_append_left _ _ _ (h3 hr hcc)
      · intro hr; exact memB_append_left _ _ _ (h4 hr)
      · intro ht; exact (h5 ht).imp id (memB_append_left _ _ _)
      · intro hg; exact (h6 hg).imp id (memB_append_left _ _ _)
      · exact h7
      · intro hd; exact memB_append_left _ _ _ (h8 hd)
      · exact h9
      · exact h10
      · intro hm
        have hm2 := memB_of_append (by decide) hm
        exact ⟨beforeB_append_left _ _ _ _ (h11 hm2).1, (h11 hm2).2⟩
      · intro hm
        have hm2 := memB_of_append (by decide) hm
        obtain ⟨ha, hb, hc⟩ := h12 hm2
        exact ⟨beforeB_append_left _ _ _ _ ha,
               fun hx => beforeB_append_left _ _ _ _ (hb hx),
               fun hx => beforeB_append_left _ _ _ _ (hc hx)⟩
      · intro hm hcc
        exact beforeB_append_left _ _ _ _ (h13 (memB_of_append (by decide) hm) hcc)
      · intro hm
        exact beforeB_append_left _ _ _ _ (h14 (memB_of_append (by decide) hm))
  | update =>
    simp only [mstep]
    exact ⟨h1, h2, h3, h4, h5, h6, h7, h8, h9, h10, h11, h12, h13, h14⟩
  | kick =>
    simp only [mstep]
    by_cases hk : s.pending ∧ s.phase = .done
    · rw [if_pos hk]
      unfold Inv
      refine ⟨?_, ?_, ?_, ?_, ?_, ?_, ?_, ?_, ?_, ?_, ?_, ?_, ?_, ?_⟩
      · exact h1
      · intro hr; exact memB_append_left _ _ _ (h2 hr)
      · intro hr hcc; exact memB_append_left _ _ _ (h3 hr hcc)
      · intro hr; exact memB_append_left _ _ _ (h4 hr)
      · intro ht; exact (h5 ht).imp id (memB_append_left _ _ _)
      · intro hg; exact (h6 hg).imp id (memB_append_left _ _ _)
      · exact h7
      · intro hd; exact memB_append_left _ _ _ (h8 hd)
      · exact h9
      · exact h10
      · intro hm
        have hm2 := memB_of_append (by decide) hm
        exact ⟨beforeB_append_left _ _ _ _ (h11 hm2).1, (h11 hm2).2⟩
      · intro hm
        have hm2 := memB_of_append (by decide) hm
        obtain ⟨ha, hb, hc⟩ := h12 hm2
        exact ⟨beforeB_append_left _ _ _ _ ha,
               fun hx => beforeB_append_left _ _ _ _ (hb hx),
               fun hx => beforeB_append_left _ _ _ _ (hc hx)⟩
      · intro hm hcc
        exact beforeB_append_left _ _ _ _ (h13 (memB_of_append (by decide) hm) hcc)
      · intro _
        exact beforeB_append_right _ _ _ _ (h8 hk.2) (by decide)
    · rw [if_neg hk]
      exact ⟨h1, h2, h3, h4, h5, h6, h7, h8, h9, h10, h11, h12, h13, h14⟩

theorem Inv_mrun (cfg : MConfig) (script : List Cmd) : Inv cfg (mrun cfg script) := by
  suffices hgen : ∀ s, Inv cfg s → Inv cfg (script.foldl (mstep cfg) s) by
    exact hgen (minit cfg) (Inv_minit cfg)
  induction script with
  | nil => intro s hs; exact hs
  | cons c rest ih =>
    intro s hs
    exact ih (mstep cfg s c) (Inv_step cfg s c hs)

/-! ## Activation machine for variant 1 (`Transition.svelte`, first script,
`apply` lines 136–155, `execute`/`update` lines 190–239)

Variant 1's `apply` differs from the part_000 variant: the `transitionend`
listener is registered after `nextFrame`, `removeClasses(base)` /
`removeClasses(to)` happen right after `await transitioned` and *before*
`await completed` (the children gate), and `context.show.set(show)` runs in
`execute` when `enter()`/`leave()` first suspends.  Variant 1's `update` is
`update(show) { execute(show) }`: it invokes `execute` synchronously with no
wait on any in-flight activation. -/

inductive V1Phase where
  | beforeEv       -- dispatch of the before signal
  | installing     -- `const completed = childrenCompleted()`
  | addingBaseFrom -- `addClasses(base); addClasses(from)`
  | broadcasting   -- `context.show.set(show)` as `execute` resumes
  | frameWait      -- `await nextFrame()`
  | registering    -- `const transitioned = transitionEnd(base)`
  | removingFrom
  | addingTo
  | transWait      -- `await transitioned`
  | removingFinal  -- `removeClasses(base); removeClasses(to)`
  | gateWait       -- `await completed`
  | parentCalling
  | parentWaiting
  | afterEv
  | done
deriving DecidableEq, Repr

def V1Phase.rank : V1Phase → Nat
  | .beforeEv => 0
  | .installing => 1
  | .addingBaseFrom => 2
  | .broadcasting => 3
  | .frameWait => 4
  | .registering => 5
  | .removingFrom => 6
  | .addingTo => 7
  | .transWait => 8
  | .removingFinal => 9
  | .gateWait => 10
  | .parentCalling => 11
  | .parentWaiting => 12
  | .afterEv => 13
  | .done => 14

structure V1State where
  phase : V1Phase
  frames : Nat
  listener : Bool
  tDone : Bool
  arrivals : Nat
  gDone : Bool
  pDone : Bool
  trace : List Ev
deriving DecidableEq, Repr

def v1init : V1State := ⟨.beforeEv, 0, false, false, 0, false, false, []⟩

def v1step (cfg : MConfig) (s : V1State) : Cmd → V1State
  | .prog =>
    match s.phase with
    | .beforeEv => { s with phase := .installing, trace := s.trace ++ [.evBefore] }
    | .installing =>
        if cfg.count = 0 then { s with phase := .addingBaseFrom, gDone := true }
        else { s with phase := .addingBaseFrom, trace := s.trace ++ [.installGate] }
    | .addingBaseFrom => { s with phase := .broadcasting, trace := s.trace ++ [.addBaseFrom] }
    | .broadcasting => { s with phase := .frameWait, trace := s.trace ++ [.broadcast] }
    | .frameWait =>
        if 2 ≤ s.frames then { s with phase := .registering } else s
    | .registering =>
        if cfg.base = [] then { s with phase := .removingFrom, tDone := true }
        else { s with phase := .removingFrom, listener := true, trace := s.trace ++ [.registerL] }
    | .removingFrom => { s with phase := .addingTo, trace := s.trace ++ [.removeFrom] }
    | .addingTo => { s with phase := .transWait, trace := s.trace ++ [.addTo] }
    | .transWait => if s.tDone then { s with phase := .removingFinal } else s
    | .removingFinal => { s with phase := .gateWait, trace := s.trace ++ [.removeFinal] }
    | .gateWait =>
        if s.gDone then
          if cfg.hasParent then { s with phase := .parentCalling }
          else { s with phase := .afterEv }
        else s
    | .parentCalling => { s with phase := .parentWaiting, trace := s.trace ++ [.parentReport] }
    | .parentWaiting => if s.pDone then { s with phase := .afterEv } else s
    | .afterEv => { s with phase := .done, trace := s.trace ++ [.evAfter] }
    | .done => s
  | .frame =>
    if s.phase = .frameWait ∧ s.frames < 2 then
      { s with frames := s.frames + 1, trace := s.trace ++ [.frame] }
    else s
  | .tFire =>
    if s.listener then
      { s with listener := false, tDone := true, trace := s.trace ++ [.tFire] }
    else s
  | .report =>
    if 2 ≤ s.phase.rank ∧ cfg.count ≠ 0 then
      if s.arrivals + 1 = cfg.count ∧ s.gDone = false then
        { s with arrivals := s.arrivals + 1, gDone := true,
                 trace := s.trace ++ [.report, .gateResolved] }
      else { s with arrivals := s.arrivals + 1, trace := s.trace ++ [.report] }
    else { s with trace := s.trace ++ [.report] }
  | .parentDone =>
    if s.pDone then s else { s with pDone := true, trace := s.trace ++ [.parentDone] }
  | .update =>
    -- variant 1: `update(show) { execute(show) }` — the new activation's
    -- `enter`/`leave` runs synchronously (before dispatch and class addition)
    -- regardless of any in-flight activation
    { s with trace := s.trace ++ [.act2Before, .act2AddBaseFrom] }
  | .kick => s

def v1run (cfg : MConfig) (script : List Cmd) : V1State :=
  script.foldl (v1step cfg) v1init

/-! ## Gate lemmas -/

theorem reportIter_arrivals (N k : Nat) : (reportIter N k).arrivals = k := by
  induction k with
  | zero => rfl
  | succ k ih =>
    unfold reportIter completedCall
    split <;> simp [ih]

theorem reportIter_resolveCalls (N k : Nat) (hN : 0 < N) :
    (reportIter N k).resolveCalls = if N ≤ k then 1 else 0 := by
  induction k with
  | zero =>
    rw [if_neg (by omega)]
    rfl
  | succ k ih =>
    unfold reportIter completedCall
    rw [reportIter_arrivals N k]
    by_cases hc : k + 1 = N
    · rw [if_pos hc]
      show (reportIter N k).resolveCalls + 1 = _
      rw [ih, if_neg (by omega), if_pos (by omega)]
    · rw [if_neg hc]
      show (reportIter N k).resolveCalls = _
      rw [ih]
      by_cases h2 : N ≤ k
      · rw [if_pos h2, if_pos (by omega)]
      · rw [if_neg h2, if_neg (by omega)]

theorem completedCall_arrivals (c : Nat) (g : GateState) :
    (completedCall c g).arrivals = g.arrivals + 1 := by
  unfold completedCall
  split <;> rfl

theorem completedCallsOver_pos_aux (counts : List Nat) :
    ∀ g : GateState,
      (0 < (counts.foldl (fun g c => completedCall c g) g).resolveCalls ↔
        0 < g.resolveCalls ∨
          ∃ i, i < counts.length ∧ counts.getD i 0 = g.arrivals + i + 1) := by
  induction counts with
  | nil =>
    intro g
    simp
  | cons c rest ih =>
    intro g
    rw [List.foldl_cons, ih (completedCall c g)]
    unfold completedCall
    by_cases hc : g.arrivals + 1 = c
    · rw [if_pos hc]
      constructor
      · intro _
        exact Or.inr ⟨0, by simp, by simpa using hc.symm⟩
      · intro _
        exact Or.inl (by simp)
    · rw [if_neg hc]
      constructor
      · intro h
        rcases h with h | ⟨i, hlen, hget⟩
        · exact Or.inl h
        · refine Or.inr ⟨i + 1, by simpa using hlen, ?_⟩
          simp only [List.getD_cons_succ]
          simp only [GateState.arrivals] at hget
          omega
      · intro h
        rcases h with h | ⟨i, hlen, hget⟩
        · exact Or.inl h
        · cases i with
          | zero =>
            simp only [List.getD_cons_zero] at hget
            exact absurd hget.symm (by simpa using hc)
          | succ i =>
            have hlen2 : i < rest.length := by simpa using hlen
            refine Or.inr ⟨i, hlen2, ?_⟩
            simp only [List.getD_cons_succ] at hget
            simp only [GateState.arrivals]
            omega

theorem completedCallsOver_pos (counts : List Nat) :
    0 < (completedCallsOver counts).resolveCalls ↔
      ∃ i, i < counts.length ∧ counts.getD i 0 = i + 1 := by
  unfold completedCallsOver
  rw [completedCallsOver_pos_aux counts gateInit]
  simp [gateInit]

theorem getD_replicate_of_lt (k N i : Nat) (h : i < k) :
    (List.replicate k N).getD i 0 = N := by
  induction k generalizing i with
  | zero => omega
  | succ k ih =>
    cases i with
    | zero => simp [List.replicate]
    | succ i => simpa [List.replicate] using ih i (by omega)

/-! ## Remaining helper lemmas -/

theorem executeSeq_true (l : List Bool) : executeSeq true l = l.map some := by
  induction l with
  | nil => rfl
  | cons b rest ih => simp [executeSeq, executeOne, ih]

theorem fireTimes_succ (k : Nat) : fireTimes (k + 1) = ⟨false, true, true⟩ := by
  induction k with
  | zero => rfl
  | succ k ih =>
    show fireTransitionEnd (fireTimes (k + 1)) = _
    rw [ih]
    rfl

/-- Concrete activation configuration used by the witnesses: one subscribed
descendant, non-empty class sets, no parent. -/
def wcfg : MConfig := ⟨1, ["x"], ["f"], ["t"], false, false, true⟩

/-- A schedule of one full activation of the part_000 machine on `wcfg`,
followed by a queued `show` update that is kicked after the activation
settles. -/
def wscript : List Cmd :=
  [.prog, .prog, .prog, .prog, .prog, .prog, .frame, .frame, .prog, .prog,
   .prog, .tFire, .report, .prog, .prog, .prog, .prog, .update, .kick]

/-- Variant-1 configuration for the ordering counterexample: one subscribed
descendant, non-empty class sets. -/
def v1cfg : MConfig := ⟨1, ["x"], ["f"], ["t"], false, false, true⟩

/-- A variant-1 schedule in which the native `transitionend` arrives before
the descendant's completion report. -/
def c1script : List Cmd :=
  [.prog, .prog, .prog, .prog, .frame, .frame, .prog, .prog, .prog, .prog,
   .tFire, .prog, .prog, .report, .prog, .prog]

/-- Variant-1 configuration with no descendants, used for the re-entrancy
counterexample. -/
def c4cfg : MConfig := ⟨0, ["x"], ["f"], ["t"], false, false, true⟩

/-- A variant-1 schedule in which the `show` input changes while the first
activation is suspended awaiting its `transitionend`. -/
def c4script : List Cmd :=
  [.prog, .prog, .prog, .prog, .frame, .frame, .prog, .prog, .prog, .prog,
   .update, .tFire, .prog, .prog, .prog, .prog]

/-! ## Claim theorems -/

/-- Claim C1, counterexample.  In variant 1 (`Transition.svelte` first
script, `apply` lines 136–155) the base and to classes are removed right
after `await transitioned` and *before* `await completed`: under a schedule
where the descendant's report arrives after the native `transitionend`, the
trace contains the final class removal strictly before the gate resolution,
so it is false that the classes are removed only after both the
transition-completion signal and the descendant gate have resolved. -/
theorem c1_counterexample :
    memB .removeFinal (v1run v1cfg c1script).trace = true ∧
    memB .gateResolved (v1run v1cfg c1script).trace = true ∧
    beforeB .gateResolved .removeFinal (v1run v1cfg c1script).trace = false ∧
    beforeB .removeFinal .gateResolved (v1run v1cfg c1script).trace = true := by
  decide

/-- Claim C1, amended: in the part_000 variant (`apply` lines 160–191, and
likewise variant 2) every schedule keeps the fixed order — base+from added,
two frame boundaries pass before the from→to swap, and the base and to
classes are removed only after both the native transition-completion signal
(when the base class list is non-empty) and the descendant completion gate
(when the descendant count is non-zero) have resolved. -/
theorem c1_removal_after_joint_wait (cfg : MConfig) (script : List Cmd) :
    (memB .removeFrom (mrun cfg script).trace = true →
        beforeB .addBaseFrom .removeFrom (mrun cfg script).trace = true ∧
        2 ≤ (mrun cfg script).frames) ∧
    (memB .removeFinal (mrun cfg script).trace = true →
        beforeB .addTo .removeFinal (mrun cfg script).trace = true ∧
        (cfg.base ≠ [] → beforeB .tFire .removeFinal (mrun cfg script).trace = true) ∧
        (cfg.count ≠ 0 →
          beforeB .gateResolved .removeFinal (mrun cfg script).trace = true)) := by
  have h := Inv_mrun cfg script
  unfold Inv at h
  obtain ⟨-, -, -, -, -, -, -, -, -, -, h11, h12, -, -⟩ := h
  exact ⟨h11, h12⟩

/-- Claim C1, witness for the amended theorem at the concrete activation
`wcfg`/`wscript`. -/
theorem c1_witness :
    beforeB .addTo .removeFinal (mrun wcfg wscript).trace = true ∧
    beforeB .tFire .removeFinal (mrun wcfg wscript).trace = true ∧
    beforeB .gateResolved .removeFinal (mrun wcfg wscript).trace = true ∧
    beforeB .addBaseFrom .removeFrom (mrun wcfg wscript).trace = true := by
  have h := c1_removal_after_joint_wait wcfg wscript
  exact ⟨(h.2 (by decide)).1, (h.2 (by decide)).2.1 (by decide),
         (h.2 (by decide)).2.2 (by decide), (h.1 (by decide)).1⟩

/-- Claim C2: `childrenCompleted` with `count = 0` is an immediately
resolved wait with no gate; for a constant descendant count `N > 0` the
gate's resolve is called for the first time exactly on the `N`-th report
(zero resolve calls after fewer than `N` reports) and is never called a
second time no matter how many further reports arrive. -/
theorem c2_gate_counting (N k : Nat) (hN : 0 < N) :
    childrenCompleted 0 = .immediate ∧
    (reportIter N k).arrivals = k ∧
    (reportIter N k).resolveCalls = if N ≤ k then 1 else 0 :=
  ⟨rfl, reportIter_arrivals N k, reportIter_resolveCalls N k hN⟩

/-- Claim C2, witness: with two descendants, one report does not resolve,
two reports resolve exactly once, five reports still give one resolution. -/
theorem c2_witness :
    (reportIter 2 1).resolveCalls = 0 ∧ (reportIter 2 2).resolveCalls = 1 ∧
    (reportIter 2 5).resolveCalls = 1 := by
  have h1 := (c2_gate_counting 2 1 (by decide)).2.2
  have h2 := (c2_gate_counting 2 2 (by decide)).2.2
  have h5 := (c2_gate_counting 2 5 (by decide)).2.2
  refine ⟨?_, ?_, ?_⟩
  · rw [h1]; decide
  · rw [h2]; decide
  · rw [h5]; decide

/-- Claim C3, counterexample.  The gate closure compares the running arrival
counter against `context.count` read live at each call, not against a
snapshot: a gate created while `count = 1` (so the claim demands resolution
on the first report) stays unresolved after one report if a new descendant
subscribed in the meantime (live count 2), and resolves only on a second
report — the in-flight count change did change the number of arrivals the
gate needs. -/
theorem c3_counterexample :
    childrenCompleted 1 = .gate gateInit ∧
    (completedCallsOver [2]).resolveCalls = 0 ∧
    (completedCallsOver [2, 2]).resolveCalls = 1 := by
  decide

/-- Claim C3, amended: the gate resolves exactly when some report call's
running arrival index equals the `context.count` value read live at that
call; when the count stays constant for the whole activation this reduces
to requiring exactly the count sampled at the activation's start. -/
theorem c3_live_count_semantics :
    (∀ counts : List Nat,
        (0 < (completedCallsOver counts).resolveCalls ↔
          ∃ i, i < counts.length ∧ counts.getD i 0 = i + 1)) ∧
    (∀ N k : Nat, 0 < N →
        (0 < (completedCallsOver (List.replicate k N)).resolveCalls ↔ N ≤ k)) := by
  refine ⟨completedCallsOver_pos, ?_⟩
  intro N k hN
  rw [completedCallsOver_pos]
  constructor
  · rintro ⟨i, hik, hget⟩
    rw [List.length_replicate] at hik
    rw [getD_replicate_of_lt k N i hik] at hget
    omega
  · intro hNk
    refine ⟨N - 1, ?_, ?_⟩
    · rw [List.length_replicate]; omega
    · rw [getD_replicate_of_lt k N (N - 1) (by omega)]; omega

/-- Claim C3, witness for the amended theorem: constant count 2 needs two
reports; a live-count run `[1]` resolves at its first report. -/
theorem c3_witness :
    (0 < (completedCallsOver (List.replicate 2 2)).resolveCalls) ∧
    ¬ (0 < (completedCallsOver (List.replicate 1 2)).resolveCalls) ∧
    (0 < (completedCallsOver [1]).resolveCalls) := by
  have h2 := c3_live_count_semantics.2 2 2 (by decide)
  have h1 := c3_live_count_semantics.2 2 1 (by decide)
  have hl := c3_live_count_semantics.1 [1]
  refine ⟨h2.mpr (by decide), ?_, hl.mpr ⟨0, by decide, by decide⟩⟩
  intro hpos
  exact absurd (h1.mp hpos) (by decide)

/-- Claim C4, counterexample.  In variants 1 and 2 (`Transition.svelte`),
`update(show)` is just `execute(show)`: when the show input changes while
the first activation is suspended awaiting its `transitionend`, the queued
activation's before-dispatch and class additions appear in the trace before
the in-flight activation's final class removal and after-dispatch — the new
activation is not deferred until the in-flight finalize. -/
theorem c4_counterexample :
    memB .act2Before (v1run c4cfg c4script).trace = true ∧
    memB .removeFinal (v1run c4cfg c4script).trace = true ∧
    beforeB .act2Before .removeFinal (v1run c4cfg c4script).trace = true ∧
    beforeB .evAfter .act2Before (v1run c4cfg c4script).trace = false ∧
    beforeB .act2AddBaseFrom .removeFinal (v1run c4cfg c4script).trace = true := by
  decide

/-- Claim C4, amended: in the part_000 variant, `update` chains the next
`execute` on the `executing` promise, so under every schedule a queued
activation's first event occurs only after the in-flight activation's
after-dispatch (hence after its finalize). -/
theorem c4_update_serialized (cfg : MConfig) (script : List Cmd)
    (h : memB .act2Before (mrun cfg script).trace = true) :
    beforeB .evAfter .act2Before (mrun cfg script).trace = true := by
  have hinv := Inv_mrun cfg script
  unfold Inv at hinv
  exact hinv.2.2.2.2.2.2.2.2.2.2.2.2.2 h

/-- Claim C4, witness for the amended theorem at the concrete schedule
`wscript`, whose queued update is kicked after the activation settles. -/
theorem c4_witness :
    beforeB .evAfter .act2Before (mrun wcfg wscript).trace = true :=
  c4_update_serialized wcfg wscript (by decide)

/-- Claim C5: each leave-side field defaults independently — `leave` to
`enter`, `leaveFrom` to `enterTo`, `leaveTo` to `enterFrom` — an explicitly
supplied value overrides only its own field, and the concrete example
`enter="a", enterFrom="b", enterTo="c"` with no leave fields set derives
`leave="a", leaveFrom="c", leaveTo="b"`. -/
theorem c5_leave_defaults (p : ClassProps) :
    (p.leave = none → leaveStr p = p.enter) ∧
    (∀ v, p.leave = some v → leaveStr p = v) ∧
    (p.leaveFrom = none → leaveFromStr p = p.enterTo) ∧
    (∀ v, p.leaveFrom = some v → leaveFromStr p = v) ∧
    (p.leaveTo = none → leaveToStr p = p.enterFrom) ∧
    (∀ v, p.leaveTo = some v → leaveToStr p = v) ∧
    (leaveStr ⟨"a", "b", "c", none, none, none⟩ = "a" ∧
     leaveFromStr ⟨"a", "b", "c", none, none, none⟩ = "c" ∧
     leaveToStr ⟨"a", "b", "c", none, none, none⟩ = "b") := by
  refine ⟨?_, ?_, ?_, ?_, ?_, ?_, rfl, rfl, rfl⟩
  · intro h; simp [leaveStr, h]
  · intro v h; simp [leaveStr, h]
  · intro h; simp [leaveFromStr, h]
  · intro v h; simp [leaveFromStr, h]
  · intro h; simp [leaveToStr, h]
  · intro v h; simp [leaveToStr, h]

/-- Claim C5, witness: a mixed configuration — explicit `leave` overrides
only `leave`, while `leaveFrom`/`leaveTo` still default. -/
theorem c5_witness :
    leaveStr ⟨"a", "b", "c", some "l", none, none⟩ = "l" ∧
    leaveFromStr ⟨"a", "b", "c", some "l", none, none⟩ = "c" ∧
    leaveToStr ⟨"a", "b", "c", some "l", none, none⟩ = "b" := by
  have h := c5_leave_defaults ⟨"a", "b", "c", some "l", none, none⟩
  exact ⟨h.2.1 "l" rfl, h.2.2.1 rfl, h.2.2.2.2.1 rfl⟩

/-- Claim C6: `execute`'s very first call starts an activation iff the run
flag (`appear` for a top-level node) is set, and every subsequent call
always starts one; with `appear = false` and `shown = true` the initial
call starts no activation (hence no before-enter/after-enter dispatches)
and the node's wrapper begins directly in the shown display state. -/
theorem c6_first_execute_appear (appear showB : Bool) (rest : List Bool) :
    executeSeq appear (showB :: rest) =
      (if appear then some showB else none) :: rest.map some ∧
    executeSeq false [true] = [none] ∧
    displayInit (some true) false = "contents" := by
  refine ⟨?_, rfl, rfl⟩
  cases appear <;> simp [executeSeq, executeOne, executeSeq_true]

/-- Claim C7: `transitionEnd` of an empty class list is an immediately
resolved wait registering no listener; of a non-empty list it registers a
`once` listener whose first firing resolves, stops propagation, and
deregisters, and any later firing changes nothing. -/
theorem c7_transitionEnd_spec :
    transitionEnd [] = .immediate ∧
    (∀ ns : List String, ns ≠ [] →
        transitionEnd ns = .pending ⟨true, false, false⟩) ∧
    (∀ k, 1 ≤ k → fireTimes k = ⟨false, true, true⟩) := by
  refine ⟨rfl, ?_, ?_⟩
  · intro ns h
    unfold transitionEnd
    rw [if_neg (by simpa using h)]
  · intro k hk
    obtain ⟨k2, rfl⟩ : ∃ k2, k = k2 + 1 := ⟨k - 1, by omega⟩
    exact fireTimes_succ k2

/-- Claim C7, witness: one class name registers a listener; two firings
leave the same resolved/stopped/deregistered state as one. -/
theorem c7_witness :
    transitionEnd ["x"] = .pending ⟨true, false, false⟩ ∧
    fireTimes 1 = ⟨false, true, true⟩ ∧ fireTimes 2 = ⟨false, true, true⟩ := by
  have h := c7_transitionEnd_spec
  exact ⟨h.2.1 ["x"] (by decide), h.2.2 1 (by decide), h.2.2 2 (by decide)⟩

/-- Claim C8, counterexample.  With `unmount = true, shown = false` the
child starts absent (`mounted = false`), but if `appear = true` the initial
`execute(false)` runs a leave activation whose `ensureMountedElement`
mounts the content while `shown` is still false — the content does not
remain absent until `shown` becomes true. -/
theorem c8_counterexample :
    mountedInit true (some false) = false ∧
    mountedDuringInitialExecute false true true = true := by
  decide

/-- Claim C8, amended: with `unmount = true, shown = false` and
`appear = false` (the default), the child content is absent at construction
and stays absent through the initial `execute`; it is mounted by
`ensureMountedElement` once an activation runs after `shown` turns true. -/
theorem c8_unmounted_until_shown :
    mountedInit true (some false) = false ∧
    mountedDuringInitialExecute false false true = false ∧
    ensureMountedElement true false = true := by
  decide

/-- Claim C9: in every schedule of a part_000 activation with at least one
subscribed descendant, the install of the fresh completion gate
(`childrenCompleted` replacing `context.completed`) precedes the broadcast
of the new show value (`set(show)`) in the trace, so descendants react — and
report — only against the current activation's gate. -/
theorem c9_gate_installed_before_broadcast (cfg : MConfig) (script : List Cmd)
    (hbc : memB .broadcast (mrun cfg script).trace = true)
    (hcount : cfg.count ≠ 0) :
    beforeB .installGate .broadcast (mrun cfg script).trace = true := by
  have hinv := Inv_mrun cfg script
  unfold Inv at hinv
  exact hinv.2.2.2.2.2.2.2.2.2.2.2.2.1 hbc hcount

/-- Claim C9, witness at the concrete activation `wcfg`/`wscript`. -/
theorem c9_witness :
    beforeB .installGate .broadcast (mrun wcfg wscript).trace = true :=
  c9_gate_installed_before_broadcast wcfg wscript (by decide) (by decide)

/-- Claim C10: `classes` maps the empty string to the empty list and never
produces an empty token, so no empty class name reaches
`classList.add`/`classList.remove`. -/
theorem c10_classes_no_empty_token :
    classes "" = [] ∧ ∀ (s c : String), c ∈ classes s → c ≠ "" := by
  refine ⟨rfl, ?_⟩
  intro s c hc
  unfold classes at hc
  by_cases hs : s = ""
  · rw [if_pos hs] at hc
    cases hc
  · rw [if_neg hs] at hc
    have h2 := (List.mem_filter.mp hc).2
    simpa using h2

/-- Claim C10, witness: a string with leading, repeated, and trailing
spaces yields the tokens without any empty one. -/
theorem c10_witness : classes "" = [] ∧ "a" ≠ "" := by
  have h := c10_classes_no_empty_token
  exact ⟨h.1, h.2 " a  b " "a" (by decide)⟩

end SvelteTransition
